import Mathlib

/-!
Verification development for the prodsys discrete-event production-system
simulator.  The repository snapshot ships the declarative documentation,
example configurations and tutorials of the simulator, while the python
engine itself is not part of the snapshot; the engine components needed
below (queues with reservations, the event scheduler, the router and
controller contract, setup states, time-model sampling, the event logger)
are therefore modelled from the specification text, faithful to its words.
All durations and times are natural numbers, distribution draws are
integers, and every definition is executable.
-/

/- ## Queues with reservation slots (spec §4.3) -/

/-- Modelled from the spec: the engine queue class is missing from the
snapshot.  A queue is an ordered sequence of product handles with a declared
capacity (0 means unbounded), a list of outstanding reservation slot ids,
and a monotone counter producing fresh slot ids. -/
structure Queue where
  capacity : Nat
  items : List Nat
  reservations : List Nat
  nextSlot : Nat
deriving DecidableEq, Repr

/-- Modelled from the spec: `occupancy` counts the products physically held. -/
def Queue.occupancy (q : Queue) : Nat := q.items.length

/-- Modelled from the spec: `reserved` counts the slots promised to in-flight
requests. -/
def Queue.reserved (q : Queue) : Nat := q.reservations.length

/-- Modelled from the spec: a put fails (returns full, i.e. `none`) if
`occupancy + reserved ≥ capacity`; a capacity of 0 means unbounded, so the
put always succeeds there. -/
def Queue.put (q : Queue) (p : Nat) : Option Queue :=
  if q.capacity = 0 then some { q with items := q.items ++ [p] }
  else if q.capacity ≤ q.occupancy + q.reserved then none
  else some { q with items := q.items ++ [p] }

/-- Modelled from the spec: callers that receive full keep their queue
unchanged; this wrapper makes the kept state explicit. -/
def Queue.tryPut (q : Queue) (p : Nat) : Queue × Bool :=
  match q.put p with
  | some q1 => (q1, true)
  | none => (q, false)

/-- Modelled from the spec: a get is FIFO unless the controller lifts items
out of order by indexing into the queue. -/
def Queue.getAt (q : Queue) (i : Nat) : Option (Nat × Queue) :=
  if h : i < q.items.length then
    some (q.items.get ⟨i, h⟩, { q with items := q.items.eraseIdx i })
  else none

/-- Modelled from the spec: a reservation is a named promise; `reserve`
returns a fresh slot id or full. -/
def Queue.reserve (q : Queue) : Option (Nat × Queue) :=
  if q.capacity = 0 ∨ q.occupancy + q.reserved < q.capacity then
    some (q.nextSlot,
      { q with reservations := q.reservations ++ [q.nextSlot],
               nextSlot := q.nextSlot + 1 })
  else none

/-- Modelled from the spec: `commit` atomically moves the product into the
slot and decrements `reserved`; an unrecognized slot id is fatal (`none`). -/
def Queue.commit (q : Queue) (slot : Nat) (p : Nat) : Option Queue :=
  if slot ∈ q.reservations then
    some { q with items := q.items ++ [p],
                  reservations := q.reservations.erase slot }
  else none

/-- Modelled from the spec: `release` cancels a reservation; an unrecognized
slot id is fatal (`none`). -/
def Queue.release (q : Queue) (slot : Nat) : Option Queue :=
  if slot ∈ q.reservations then
    some { q with reservations := q.reservations.erase slot }
  else none

/-- Modelled from the spec: the queue invariant
`0 ≤ occupancy + reserved ≤ capacity`, where a declared capacity of 0 means
unbounded so only the trivial lower bound is required. -/
def Queue.boundInv (q : Queue) : Prop :=
  q.capacity = 0 ∨ q.occupancy + q.reserved ≤ q.capacity

instance (q : Queue) : Decidable q.boundInv := by
  unfold Queue.boundInv
  exact inferInstance

/- ## Theorems for claims C2 and C5 -/

/-- C2: for every queue with declared capacity c > 0, at every event,
`0 ≤ occupancy + reserved ≤ c`, and every queue operation (put, get at an
index, reserve, commit, release) preserves this; a queue of declared
capacity 0 is unbounded, so only the trivial lower bound holds there.  The
invariant `Queue.boundInv` states exactly this, and each of the five
operations preserves it. -/
theorem queue_ops_preserve_bound (q : Queue) (p i slot : Nat)
    (hq : q.boundInv) :
    (∀ q1, q.put p = some q1 → q1.boundInv) ∧
    (∀ x q1, q.getAt i = some (x, q1) → q1.boundInv) ∧
    (∀ s q1, q.reserve = some (s, q1) → q1.boundInv) ∧
    (∀ q1, q.commit slot p = some q1 → q1.boundInv) ∧
    (∀ q1, q.release slot = some q1 → q1.boundInv) := by
  refine ⟨?_, ?_, ?_, ?_, ?_⟩
  · intro q1 h
    unfold Queue.put at h
    split at h
    · rename_i h0
      cases h
      exact Or.inl h0
    · split at h
      · exact absurd h (by simp)
      · rename_i h0 hlt
        cases h
        simp_all [Queue.boundInv, Queue.occupancy, Queue.reserved]
        omega
  · intro x q1 h
    unfold Queue.getAt at h
    split at h
    · rename_i hlt
      cases h
      have hlen := List.length_eraseIdx_of_lt hlt
      simp_all [Queue.boundInv, Queue.occupancy, Queue.reserved]
      omega
    · exact absurd h (by simp)
  · intro s q1 h
    unfold Queue.reserve at h
    split at h
    · rename_i hc
      cases h
      simp_all [Queue.boundInv, Queue.occupancy, Queue.reserved]
      omega
    · exact absurd h (by simp)
  · intro q1 h
    unfold Queue.commit at h
    split at h
    · rename_i hmem
      cases h
      have hlen := List.length_erase_of_mem hmem
      have hpos : 1 ≤ q.reservations.length := List.length_pos.mpr
        (List.ne_nil_of_mem hmem)
      simp_all [Queue.boundInv, Queue.occupancy, Queue.reserved]
      omega
    · exact absurd h (by simp)
  · intro q1 h
    unfold Queue.release at h
    split at h
    · rename_i hmem
      cases h
      have hlen := List.length_erase_of_mem hmem
      simp_all [Queue.boundInv, Queue.occupancy, Queue.reserved]
      omega
    · exact absurd h (by simp)

/-- Witness for C2: the invariant survives a concrete put on a concrete
bounded queue that satisfies it. -/
theorem queue_ops_preserve_bound_witness :
    Queue.boundInv { capacity := 3, items := [7, 5], reservations := [0],
                     nextSlot := 1 } :=
  (queue_ops_preserve_bound
    { capacity := 3, items := [7], reservations := [0], nextSlot := 1 }
    5 0 0 (by decide)).1 _ rfl

/-- C5: for every queue of declared capacity c > 0, put fails (returns full)
exactly when `occupancy + reserved ≥ c`, and the failing put leaves the
queue unchanged; for a queue of declared capacity 0 a put never fails,
whatever the occupancy. -/
theorem put_full_iff (q : Queue) (p : Nat) :
    (0 < q.capacity →
      (q.put p = none ↔ q.capacity ≤ q.occupancy + q.reserved)) ∧
    (q.put p = none → q.tryPut p = (q, false)) ∧
    (q.capacity = 0 → ∃ q1, q.put p = some q1) := by
  refine ⟨?_, ?_, ?_⟩
  · intro hpos
    unfold Queue.put
    split
    · omega
    · split
      · simp_all
      · simp_all
  · intro h
    unfold Queue.tryPut
    rw [h]
  · intro h0
    unfold Queue.put
    simp [h0]

/-- Concrete bounded queue, full at capacity 2, used below. -/
def fullBoundedQueue : Queue := ⟨2, [1, 2], [], 0⟩

/-- Concrete unbounded queue (declared capacity 0) used below. -/
def unboundedQueue : Queue := ⟨0, [1, 2], [], 0⟩

/-- Witness for C5: a full bounded queue rejects a put, while an unbounded
queue with the same occupancy accepts it. -/
theorem put_full_iff_witness :
    (fullBoundedQueue.put 9 = none ↔
      2 ≤ fullBoundedQueue.occupancy + fullBoundedQueue.reserved) ∧
    (∃ q1, unboundedQueue.put 9 = some q1) :=
  ⟨(put_full_iff fullBoundedQueue 9).1 (by decide),
   (put_full_iff unboundedQueue 9).2.2 rfl⟩

/- ## Event scheduler: wakeups keyed on (time, seq) (spec §4.1) -/

/-- Modelled from the spec: the engine scheduler is missing from the
snapshot.  A wakeup pairs a wake time with the monotone insertion counter
`seq` and an identifier of the suspended continuation. -/
structure Wakeup where
  time : Nat
  seq : Nat
  cont : Nat
deriving DecidableEq, Repr

/-- Modelled from the spec: the scheduling order on wakeups, earlier time
first and the insertion counter `seq` breaking ties (FIFO at equal time). -/
def schedLE (a b : Wakeup) : Prop :=
  a.time < b.time ∨ (a.time = b.time ∧ a.seq ≤ b.seq)

instance (a b : Wakeup) : Decidable (schedLE a b) := by
  unfold schedLE
  exact inferInstance

instance : IsTotal Wakeup schedLE :=
  ⟨fun a b => by unfold schedLE; omega⟩

instance : IsTrans Wakeup schedLE :=
  ⟨fun a b c hab hbc => by unfold schedLE at *; omega⟩

theorem schedLE_trans {a b c : Wakeup} (hab : schedLE a b)
    (hbc : schedLE b c) : schedLE a c := by
  unfold schedLE at *
  omega

theorem schedLE_of_not {a b : Wakeup} (h : ¬ schedLE a b) : schedLE b a := by
  unfold schedLE at *
  omega

/-- Modelled from the spec: a seeded reproducible stream; one 64-bit linear
congruential step, truncated to the word size with an explicit modulus. -/
def rngNext (s : Nat) : Nat :=
  (6364136223846793005 * s + 1442695040888963407) % (2 ^ 64)

/-- Modelled from the spec: each time model holds an independent stream
derived deterministically from the root seed; the draw used when a
continuation is resumed depends only on the seed and the model of the
continuation. -/
def drawFor (seed : Nat) (w : Wakeup) : Nat :=
  rngNext (seed + 1000003 * w.cont)

/-- Modelled from the spec: an execution of the simulation resumes the
pending wakeups in (time, seq) order, single-threaded, and produces one
event-log row per resumed continuation; the internal arrangement of the
pending collection plays no role, only the (time, seq) keys do. -/
def executeSchedule (seed : Nat) (pending : List Wakeup) :
    List (Nat × Nat × Nat) :=
  (List.insertionSort schedLE pending).map
    (fun w => (w.time, w.seq, drawFor seed w))

/-- Modelled from the spec: the KPIs are derived from the event log alone;
this extract keeps the row count and the accumulated sampled durations. -/
def logKPIs (log : List (Nat × Nat × Nat)) : Nat × Nat :=
  (log.length, log.foldl (fun acc r => acc + r.2.2) 0)

/-- Two sorted lists of wakeups that are permutations of one another, with
the sequence counter identifying each wakeup uniquely, coincide. -/
theorem sorted_perm_unique :
    ∀ l1 l2 : List Wakeup, List.Sorted schedLE l1 → List.Sorted schedLE l2 →
      l1.Perm l2 → (∀ a ∈ l1, ∀ b ∈ l1, a.seq = b.seq → a = b) → l1 = l2 := by
  intro l1
  induction l1 with
  | nil =>
    intro l2 _ _ hp _
    exact (List.Perm.eq_nil hp.symm).symm
  | cons a t1 ih =>
    intro l2 hs1 hs2 hp hinj
    cases l2 with
    | nil => exact absurd (List.Perm.eq_nil hp) (by simp)
    | cons b t2 =>
      have hs1c := List.sorted_cons.mp hs1
      have hs2c := List.sorted_cons.mp hs2
      have hab : a = b := by
        have ha2 : a ∈ b :: t2 := hp.mem_iff.mp (List.mem_cons_self a t1)
        have hb1 : b ∈ a :: t1 := hp.mem_iff.mpr (List.mem_cons_self b t2)
        rcases List.mem_cons.mp ha2 with h | ha2t
        · exact h
        · rcases List.mem_cons.mp hb1 with h | hb1t
          · exact h.symm
          · have h1 : schedLE a b := hs1c.1 b hb1t
            have h2 : schedLE b a := hs2c.1 a ha2t
            have hseq : a.seq = b.seq := by unfold schedLE at h1 h2; omega
            exact hinj a (List.mem_cons_self a t1) b
              (List.mem_cons.mpr (Or.inr hb1t)) hseq
      subst hab
      have hpt : t1.Perm t2 := hp.cons_inv
      have ht := ih t2 hs1c.2 hs2c.2 hpt
        (fun x hx y hy => hinj x (List.mem_cons.mpr (Or.inr hx)) y
          (List.mem_cons.mpr (Or.inr hy)))
      rw [ht]

/-- C1: for every configuration and seed, two executions of the simulation
with identical configuration and seed produce bit-identical results, row
for row, and the same KPIs.  Two executions hold the same pending wakeups
(any permutation models the internal arrangement of the priority queue);
since `seq` identifies each insertion uniquely, the (time, seq) order plus
the per-model streams derived from the root seed make both event logs and
both KPI values equal. -/
theorem simulation_run_deterministic (seed : Nat) (l1 l2 : List Wakeup)
    (hp : l1.Perm l2)
    (hinj : ∀ a ∈ l1, ∀ b ∈ l1, a.seq = b.seq → a = b) :
    executeSchedule seed l1 = executeSchedule seed l2 ∧
    logKPIs (executeSchedule seed l1) = logKPIs (executeSchedule seed l2) := by
  have hperm : (List.insertionSort schedLE l1).Perm
      (List.insertionSort schedLE l2) :=
    (List.perm_insertionSort schedLE l1).trans
      (hp.trans (List.perm_insertionSort schedLE l2).symm)
  have hinj1 : ∀ a ∈ List.insertionSort schedLE l1,
      ∀ b ∈ List.insertionSort schedLE l1, a.seq = b.seq → a = b :=
    fun a ha b hb hs =>
      hinj a ((List.perm_insertionSort schedLE l1).mem_iff.mp ha)
        b ((List.perm_insertionSort schedLE l1).mem_iff.mp hb) hs
  have heq := sorted_perm_unique _ _
    (List.sorted_insertionSort schedLE l1)
    (List.sorted_insertionSort schedLE l2) hperm hinj1
  constructor
  · unfold executeSchedule
    rw [heq]
  · unfold executeSchedule
    rw [heq]

/-- Concrete wakeup used in the determinism witness. -/
def wakeA : Wakeup := ⟨3, 1, 5⟩

/-- Concrete wakeup used in the determinism witness. -/
def wakeB : Wakeup := ⟨3, 0, 6⟩

/-- Witness for C1: two arrangements of the same two equal-time wakeups
produce the same event log. -/
theorem simulation_run_deterministic_witness :
    executeSchedule 0 [wakeA, wakeB] = executeSchedule 0 [wakeB, wakeA] :=
  (simulation_run_deterministic 0 [wakeA, wakeB] [wakeB, wakeA]
    (List.Perm.swap wakeB wakeA []) (by decide)).1

/- ## The driver loop: pop earliest wakeup, advance clock, log (spec §4.1) -/

/-- Modelled from the spec: the driver repeatedly pops the earliest wakeup
by (time, seq); `popMin` selects it and returns the remaining pending
wakeups. -/
def popMin : List Wakeup → Option (Wakeup × List Wakeup)
  | [] => none
  | w :: rest =>
    match popMin rest with
    | none => some (w, [])
    | some (m, others) =>
      if schedLE w m then some (w, rest) else some (m, w :: others)

theorem popMin_eq_none {l : List Wakeup} (h : popMin l = none) : l = [] := by
  cases l with
  | nil => rfl
  | cons w rest =>
    rcases hr : popMin rest with _ | ⟨m, others⟩
    · simp [popMin, hr] at h
    · simp only [popMin, hr] at h
      split at h <;> simp_all

theorem popMin_perm {l : List Wakeup} {m : Wakeup} {r : List Wakeup}
    (h : popMin l = some (m, r)) : l.Perm (m :: r) := by
  induction l generalizing m r with
  | nil => simp [popMin] at h
  | cons w rest ih =>
    rcases hr : popMin rest with _ | ⟨m0, others⟩
    · have hrest : rest = [] := popMin_eq_none hr
      subst hrest
      simp [popMin] at h
      obtain ⟨h1, h2⟩ := h
      subst h1
      subst h2
      exact List.Perm.refl _
    · simp only [popMin, hr] at h
      split at h
      · cases h
        exact List.Perm.refl _
      · cases h
        have hih := ih hr
        exact (hih.cons w).trans (List.Perm.swap _ w _)

theorem popMin_min {l : List Wakeup} {m : Wakeup} {r : List Wakeup}
    (h : popMin l = some (m, r)) : ∀ x ∈ r, schedLE m x := by
  induction l generalizing m r with
  | nil => simp [popMin] at h
  | cons w rest ih =>
    intro x hx
    rcases hr : popMin rest with _ | ⟨m0, others⟩
    · have hrest : rest = [] := popMin_eq_none hr
      subst hrest
      simp [popMin] at h
      obtain ⟨h1, h2⟩ := h
      subst h2
      simp at hx
    · simp only [popMin, hr] at h
      split at h
      · rename_i hle
        cases h
        have hperm := popMin_perm hr
        have hx0 : x ∈ m0 :: others := hperm.mem_iff.mp hx
        rcases List.mem_cons.mp hx0 with h0 | h0
        · subst h0
          exact hle
        · exact schedLE_trans hle (ih hr x h0)
      · rename_i hle
        cases h
        rcases List.mem_cons.mp hx with h0 | h0
        · subst h0
          exact schedLE_of_not hle
        · exact ih hr x h0

/-- Modelled from the spec: a resumed continuation may schedule new
wakeups, one per listed delay, each stamped with the next values of the
monotone insertion counter. -/
def spawnWakeups : Nat → Nat → List Nat → List Wakeup
  | _, _, [] => []
  | t, sq, d :: ds =>
    { time := t + d, seq := sq, cont := sq } :: spawnWakeups t (sq + 1) ds

theorem spawnWakeups_mem {t : Nat} {ds : List Nat} :
    ∀ sq, ∀ w ∈ spawnWakeups t sq ds,
      t ≤ w.time ∧ sq ≤ w.seq ∧ w.seq < sq + ds.length := by
  induction ds with
  | nil => intro sq w hw; simp [spawnWakeups] at hw
  | cons d ds ih =>
    intro sq w hw
    simp only [spawnWakeups, List.mem_cons] at hw
    rcases hw with h | h
    · subst h
      simp
    · have h2 := ih (sq + 1) w h
      simp only [List.length_cons]
      omega

/-- Modelled from the spec: the driver state, a single logical clock, the
pending wakeups, the monotone insertion counter and the append-only event
log (rows keep time and seq). -/
structure SchedState where
  clock : Nat
  pending : List Wakeup
  seqc : Nat
  log : List (Nat × Nat)
deriving DecidableEq, Repr

/-- Modelled from the spec: one driver step pops the earliest wakeup,
advances the clock to its wake time, appends a log row and inserts the
wakeups scheduled by the resumed continuation (wake times are the current
time plus a nonnegative delay). -/
def stepSched (delays : Nat → List Nat) (s : SchedState) : SchedState :=
  match popMin s.pending with
  | none => s
  | some (w, rest) =>
    { clock := w.time,
      pending := rest ++ spawnWakeups w.time s.seqc (delays w.cont),
      seqc := s.seqc + (delays w.cont).length,
      log := s.log ++ [(w.time, w.seq)] }

/-- Modelled from the spec: the driver loop iterated a given number of
steps. -/
def runSched (delays : Nat → List Nat) : Nat → SchedState → SchedState
  | 0, s => s
  | n + 1, s => runSched delays n (stepSched delays s)

/-- Modelled from the spec: well-formedness of a driver state: every
pending wake time is at or after the clock, every logged time is at or
before the clock, logged times are non-decreasing, and every pending seq
was issued by the insertion counter. -/
def SchedWF (s : SchedState) : Prop :=
  (∀ w ∈ s.pending, s.clock ≤ w.time) ∧
  (∀ r ∈ s.log, r.1 ≤ s.clock) ∧
  List.Chain' (fun a b => a.1 ≤ b.1) s.log ∧
  (∀ w ∈ s.pending, w.seq < s.seqc)

theorem stepSched_wf (delays : Nat → List Nat) (s : SchedState)
    (h : SchedWF s) :
    SchedWF (stepSched delays s) ∧ s.clock ≤ (stepSched delays s).clock ∧
      s.seqc ≤ (stepSched delays s).seqc := by
  obtain ⟨hpend, hlog, hchain, hseq⟩ := h
  rcases hr : popMin s.pending with _ | ⟨w, rest⟩
  · simp only [stepSched, hr]
    exact ⟨⟨hpend, hlog, hchain, hseq⟩, le_refl _, le_refl _⟩
  · have hperm := popMin_perm hr
    have hwmem : w ∈ s.pending := hperm.mem_iff.mpr (List.mem_cons_self w rest)
    have hwclock : s.clock ≤ w.time := hpend w hwmem
    simp only [stepSched, hr]
    refine ⟨⟨?_, ?_, ?_, ?_⟩, hwclock, by omega⟩
    · intro x hx
      rcases List.mem_append.mp hx with h1 | h1
      · have hmin := popMin_min hr x h1
        unfold schedLE at hmin
        dsimp only
        omega
      · exact (spawnWakeups_mem s.seqc x h1).1
    · intro rr hrr
      rcases List.mem_append.mp hrr with h1 | h1
      · exact le_trans (hlog rr h1) hwclock
      · simp only [List.mem_singleton] at h1
        subst h1
        exact le_refl _
    · apply List.Chain'.append hchain (List.chain'_singleton _)
      intro x hx y hy
      simp only [List.head?_cons, Option.mem_def, Option.some.injEq] at hy
      subst hy
      have hxmem : x ∈ s.log := List.mem_of_mem_getLast? hx
      exact le_trans (hlog x hxmem) hwclock
    · intro x hx
      rcases List.mem_append.mp hx with h1 | h1
      · have hx2 : x ∈ s.pending := hperm.mem_iff.mpr
          (List.mem_cons_of_mem w h1)
        have := hseq x hx2
        dsimp only
        omega
      · have := (spawnWakeups_mem s.seqc x h1).2.2
        dsimp only
        omega

theorem runSched_wf (delays : Nat → List Nat) (n : Nat) :
    ∀ s, SchedWF s → SchedWF (runSched delays n s) := by
  induction n with
  | zero => intro s h; exact h
  | succ n ih => intro s h; exact ih _ (stepSched_wf delays s h).1

theorem runSched_succ (delays : Nat → List Nat) (n : Nat) (s : SchedState) :
    runSched delays (n + 1) s = stepSched delays (runSched delays n s) := by
  induction n generalizing s with
  | zero => rfl
  | succ n ih =>
    calc runSched delays (n + 2) s
        = runSched delays (n + 1) (stepSched delays s) := rfl
      _ = stepSched delays (runSched delays n (stepSched delays s)) := ih _
      _ = stepSched delays (runSched delays (n + 1) s) := rfl

/-- C3: in every run of a well-formed driver state, the logical clock never
decreases, the time column of successive event-log rows is non-decreasing,
the insertion counter `seq` is monotone, every pending seq was issued by
the counter, and wakeups sharing a wake time are resumed in insertion
order: the popped wakeup has the least seq among the equal-time pending
ones (FIFO at equal time). -/
theorem clock_log_monotone (delays : Nat → List Nat) (s : SchedState)
    (n : Nat) (hwf : SchedWF s) :
    (runSched delays n s).clock ≤ (runSched delays (n + 1) s).clock ∧
    List.Chain' (fun a b => a.1 ≤ b.1) (runSched delays n s).log ∧
    (∀ w ∈ (runSched delays n s).pending,
      w.seq < (runSched delays n s).seqc) ∧
    (runSched delays n s).seqc ≤ (runSched delays (n + 1) s).seqc ∧
    (∀ w rest, popMin (runSched delays n s).pending = some (w, rest) →
      ∀ x ∈ rest, x.time = w.time → w.seq ≤ x.seq) := by
  have hwn := runSched_wf delays n s hwf
  obtain ⟨hpend, hlog, hchain, hseq⟩ := hwn
  have hstep := stepSched_wf delays _ ⟨hpend, hlog, hchain, hseq⟩
  rw [runSched_succ]
  refine ⟨hstep.2.1, hchain, hseq, hstep.2.2, ?_⟩
  intro w rest hpop x hx hteq
  have hmin := popMin_min hpop x hx
  unfold schedLE at hmin
  omega

/-- Continuations that schedule nothing, used in the scheduler witness. -/
def noDelays : Nat → List Nat := fun _ => []

/-- Concrete well-formed driver state with two equal-time wakeups, used in
the scheduler witness. -/
def schedInit : SchedState := ⟨0, [⟨5, 0, 0⟩, ⟨5, 1, 1⟩], 2, []⟩

/-- Witness for C3: on a concrete state the clock is monotone across a step
and the log stays sorted. -/
theorem clock_log_monotone_witness :
    (runSched noDelays 1 schedInit).clock ≤
      (runSched noDelays 2 schedInit).clock ∧
    List.Chain' (fun a b => a.1 ≤ b.1) (runSched noDelays 1 schedInit).log :=
  ⟨(clock_log_monotone noDelays schedInit 1
      ⟨by decide, by decide, List.chain'_nil, by decide⟩).1,
   (clock_log_monotone noDelays schedInit 1
      ⟨by decide, by decide, List.chain'_nil, by decide⟩).2.1⟩

/- ## Setup states per direction (spec §4.4) -/

/-- Modelled from the spec: the engine SetupState is missing from the
snapshot.  A setup state carries an origin configuration, a target
configuration and the sampled setup duration for that direction (process
configurations are identified by numeric ids). -/
structure SetupState where
  origin : Nat
  target : Nat
  setupDuration : Nat
deriving DecidableEq, Repr

/-- Modelled from the spec: a resource with setup states keeps its current
process configuration and its declared setup directions. -/
structure SetupResource where
  currentConfig : Nat
  setupStates : List SetupState
deriving DecidableEq, Repr

/-- Modelled from the spec: the declared setup state for the direction from
the current configuration to the requested one, if any; setups are per
direction. -/
def findSetup (r : SetupResource) (b : Nat) : Option SetupState :=
  r.setupStates.find? (fun s => s.origin == r.currentConfig && s.target == b)

/-- Modelled from the spec: the setup delay inserted before a request for
configuration `b` may execute: zero when the configuration already matches
or when no setup state is declared for the direction, otherwise the sampled
duration of the declared direction. -/
def setupDelay (r : SetupResource) (b : Nat) : Nat :=
  if r.currentConfig = b then 0
  else
    match findSetup r b with
    | some s => s.setupDuration
    | none => 0

/-- Modelled from the spec: the time at which the processing of a request
for configuration `b`, selected at time `t`, starts: the setup for the
direction completes first. -/
def dispatchStart (r : SetupResource) (b : Nat) (t : Nat) : Nat :=
  t + setupDelay r b

/-- Modelled from the spec: after the dispatch the resource configuration
is the requested one. -/
def afterDispatch (r : SetupResource) (b : Nat) : SetupResource :=
  { r with currentConfig := b }

/-- C6: whenever the current configuration is A and a selected request
requires B with A ≠ B, the request starts only after the declared setup for
the direction A→B completes, so processing begins at `t + setup duration`;
a declared setup matches only its own direction, and when no setup state is
declared for the direction (or A = B) the request starts with no setup
delay. -/
theorem setup_before_processing (r : SetupResource) (b t : Nat)
    (st : SetupState) :
    (r.currentConfig ≠ b → findSetup r b = some st →
      dispatchStart r b t = t + st.setupDuration) ∧
    (findSetup r b = some st →
      st.origin = r.currentConfig ∧ st.target = b) ∧
    (r.currentConfig ≠ b → findSetup r b = none → dispatchStart r b t = t) ∧
    (r.currentConfig = b → dispatchStart r b t = t) ∧
    (afterDispatch r b).currentConfig = b := by
  refine ⟨?_, ?_, ?_, ?_, rfl⟩
  · intro hne hfind
    unfold dispatchStart setupDelay
    simp [hne, hfind]
  · intro hfind
    have hp := List.find?_some hfind
    simp at hp
    exact hp
  · intro hne hfind
    unfold dispatchStart setupDelay
    simp [hne, hfind]
  · intro he
    unfold dispatchStart setupDelay
    simp [he]

/-- Concrete resource with one declared setup direction 0 → 1 of duration
3, used in the setup witness. -/
def setupResA : SetupResource := ⟨0, [⟨0, 1, 3⟩]⟩

/-- Witness for C6: on the concrete resource a request for configuration 1
selected at time 10 starts processing at 13, after the declared setup. -/
theorem setup_before_processing_witness :
    dispatchStart setupResA 1 10 = 10 + 3 :=
  (setup_before_processing setupResA 1 10 ⟨0, 1, 3⟩).1 (by decide) (by decide)

/- ## Time-model sampling and the negative-draw clamp (spec §4.2, §9) -/

/-- Modelled from the spec: the engine FunctionTimeModel is missing from
the snapshot.  It holds the pre-drawn batch of distribution draws (integers,
possibly negative) and a counter of warnings emitted for this model. -/
structure FunctionTimeModel where
  draws : List Int
  warningCount : Nat
deriving DecidableEq, Repr

/-- Modelled from the spec: the source clamps a negative draw to 0 silently
(§9, open questions: source clamps silently); the sample is the clamped
draw and the model state, warning counter included, is unchanged. -/
def sampleAt (m : FunctionTimeModel) (i : Nat) : Int × FunctionTimeModel :=
  (max 0 (m.draws.getD i 0), m)

/-- Concrete time model whose next draw is negative, used for C8. -/
def negDrawModel : FunctionTimeModel := ⟨[-1], 0⟩

/-- Counterexample for C8: on a model whose draw is negative the sample is
clamped to 0, but no warning is logged — the warning count stays 0 and is
not 1, contradicting the claim that a warning is logged once per model. -/
theorem clamp_warning_counterexample :
    (sampleAt negDrawModel 0).1 = 0 ∧
    (sampleAt negDrawModel 0).2.warningCount = 0 ∧
    ¬ (sampleAt negDrawModel 0).2.warningCount = 1 := by
  refine ⟨rfl, rfl, by decide⟩

/-- C8 (amended): for every time model and every call, the sample is a
duration ≥ 0; a negative draw is clamped to 0 and a nonnegative draw is
returned unchanged; the clamp is silent — the model state, warning counter
included, is unchanged by sampling. -/
theorem sample_nonneg_clamped_silently (m : FunctionTimeModel) (i : Nat) :
    0 ≤ (sampleAt m i).1 ∧
    (m.draws.getD i 0 < 0 → (sampleAt m i).1 = 0) ∧
    (0 ≤ m.draws.getD i 0 → (sampleAt m i).1 = m.draws.getD i 0) ∧
    (sampleAt m i).2 = m := by
  refine ⟨le_max_left 0 _, ?_, ?_, rfl⟩
  · intro h
    exact max_eq_left h.le
  · intro h
    exact max_eq_right h

/-- Witness for C8: the negative concrete draw is clamped to 0 and the
model is unchanged. -/
theorem sample_nonneg_clamped_silently_witness :
    (sampleAt negDrawModel 0).1 = 0 ∧
    (sampleAt negDrawModel 0).2 = negDrawModel :=
  ⟨(sample_nonneg_clamped_silently negDrawModel 0).2.1 (by decide),
   (sample_nonneg_clamped_silently negDrawModel 0).2.2.2⟩

/- ## Event-log records (spec §6, tutorial 2) -/

/-- Modelled from the spec: the closed set of state types a log record can
refer to. -/
inductive StateType
  | sourceState
  | sinkState
  | production
  | transport
  | breakdown
  | processBreakdown
  | setupType
  | standby
deriving DecidableEq, Repr

/-- Modelled from the spec: the engine EventLogger is missing from the
snapshot.  A log record has exactly the eight documented fields: Time,
Resource, State, State Type, Activity, Product, Expected End Time, Target
location (entity references are numeric ids). -/
structure EventLogRecord where
  time : Nat
  resource : Nat
  state : Nat
  stateType : StateType
  activity : Nat
  product : Option Nat
  expectedEndTime : Nat
  targetLocation : Option Nat
deriving DecidableEq, Repr

/-- Modelled from the spec: the Product field of a record is populated only
for Production or Transport states. -/
def productField (ty : StateType) (prod : Nat) : Option Nat :=
  match ty with
  | .production => some prod
  | .transport => some prod
  | _ => none

/-- Modelled from the spec: the Target location field of a record is
populated only for Transport states. -/
def targetField (ty : StateType) (tloc : Nat) : Option Nat :=
  match ty with
  | .transport => some tloc
  | _ => none

/-- Modelled from the spec: the logger builds a record from a state
transition; the Product field is populated only for Production or Transport
states and the Target location field only for Transport states. -/
def mkLogRecord (t res st : Nat) (ty : StateType)
    (act prod ee tloc : Nat) : EventLogRecord :=
  { time := t, resource := res, state := st, stateType := ty,
    activity := act,
    product := productField ty prod,
    expectedEndTime := ee,
    targetLocation := targetField ty tloc }

/-- C10: every record the logger produces consists of exactly the eight
documented fields, its Product field is populated exactly for Production
and Transport state records, and its Target location field is populated
exactly for Transport state records. -/
theorem log_record_fields (t res st : Nat) (ty : StateType)
    (act prod ee tloc : Nat) :
    (mkLogRecord t res st ty act prod ee tloc =
      ⟨(mkLogRecord t res st ty act prod ee tloc).time,
       (mkLogRecord t res st ty act prod ee tloc).resource,
       (mkLogRecord t res st ty act prod ee tloc).state,
       (mkLogRecord t res st ty act prod ee tloc).stateType,
       (mkLogRecord t res st ty act prod ee tloc).activity,
       (mkLogRecord t res st ty act prod ee tloc).product,
       (mkLogRecord t res st ty act prod ee tloc).expectedEndTime,
       (mkLogRecord t res st ty act prod ee tloc).targetLocation⟩) ∧
    ((mkLogRecord t res st ty act prod ee tloc).product.isSome →
      ty = .production ∨ ty = .transport) ∧
    ((mkLogRecord t res st ty act prod ee tloc).targetLocation.isSome →
      ty = .transport) ∧
    (ty = .production ∨ ty = .transport →
      (mkLogRecord t res st ty act prod ee tloc).product = some prod) ∧
    (ty = .transport →
      (mkLogRecord t res st ty act prod ee tloc).targetLocation = some tloc) := by
  refine ⟨rfl, ?_, ?_, ?_, ?_⟩ <;> cases ty <;>
    simp [mkLogRecord, productField, targetField]

/-- Witness for C10: a concrete transport record carries both its product
and its target location. -/
theorem log_record_fields_witness :
    (mkLogRecord 1 2 3 .transport 4 5 6 7).product = some 5 ∧
    (mkLogRecord 1 2 3 .transport 4 5 6 7).targetLocation = some 7 :=
  ⟨(log_record_fields 1 2 3 .transport 4 5 6 7).2.2.2.1 (Or.inr rfl),
   (log_record_fields 1 2 3 .transport 4 5 6 7).2.2.2.2 rfl⟩

/- ## Router and the deadlock-avoidance contract (spec §4.6) -/

/-- Modelled from the spec: the engine router is missing from the snapshot.
A candidate target resource is its id together with its input queue. -/
structure Candidate where
  resourceId : Nat
  inputQueue : Queue
deriving DecidableEq, Repr

/-- Modelled from the spec: a target queue can accept a result when it has
a free slot or a slot can be reserved; this is exactly the condition under
which `Queue.reserve` succeeds. -/
def hasFreeSlot (q : Queue) : Bool :=
  decide (q.capacity = 0 ∨ q.occupancy + q.reserved < q.capacity)

/-- Modelled from the spec: the closed set of routing policies: random
(uniform over feasible candidates, here driven by a seeded index),
shortest queue, and arrival-order FIFO. -/
inductive RoutingPolicy
  | randomPick (k : Nat)
  | shortestQueue
  | fifoArrival
deriving DecidableEq, Repr

/-- Modelled from the spec: the shortest-queue load of a candidate, the
occupancy plus reservations of its input queue. -/
def load (c : Candidate) : Nat :=
  c.inputQueue.occupancy + c.inputQueue.reserved

/-- Modelled from the spec: candidate ordering for shortest queue, fewest
load first with ties broken by resource id. -/
def betterCand (b x : Candidate) : Bool :=
  decide (load x < load b) ||
    (decide (load x = load b) && decide (x.resourceId < b.resourceId))

theorem foldl_pick_mem {α : Type} (better : α → α → Bool) :
    ∀ (l : List α) (a : α),
      l.foldl (fun b x => if better b x then x else b) a ∈ a :: l := by
  intro l
  induction l with
  | nil => intro a; simp
  | cons x xs ih =>
    intro a
    have h := ih (if better a x then x else a)
    simp only [List.foldl_cons]
    rcases List.mem_cons.mp h with h1 | h1
    · rw [h1]
      split
      · exact List.mem_cons.mpr (Or.inr (List.mem_cons_self x xs))
      · exact List.mem_cons_self a _
    · exact List.mem_cons.mpr (Or.inr (List.mem_cons.mpr (Or.inr h1)))

/-- Modelled from the spec: the router enumerates the candidates, filters
out those whose input queue has no free slot and cannot be reserved, then
applies the policy to the feasible ones. -/
def chooseTarget (p : RoutingPolicy) (cs : List Candidate) :
    Option Candidate :=
  match p, cs.filter (fun c => hasFreeSlot c.inputQueue) with
  | _, [] => none
  | .randomPick k, c :: rest =>
    some ((c :: rest).getD (k % (rest.length + 1)) c)
  | .shortestQueue, c :: rest =>
    some (rest.foldl (fun b x => if betterCand b x then x else b) c)
  | .fifoArrival, c :: _ => some c

theorem chooseTarget_mem (p : RoutingPolicy) (cs : List Candidate)
    (c : Candidate) (h : chooseTarget p cs = some c) :
    c ∈ cs.filter (fun c => hasFreeSlot c.inputQueue) := by
  unfold chooseTarget at h
  rcases hf : cs.filter (fun c => hasFreeSlot c.inputQueue) with _ | ⟨c0, rest⟩ <;>
    rw [hf] at h
  · cases p <;> simp at h
  · rw [hf]
    cases p with
    | randomPick k =>
      simp only [Option.some.injEq] at h
      subst h
      have hlt : k % (rest.length + 1) < (c0 :: rest).length := by
        simp only [List.length_cons]
        exact Nat.mod_lt _ (Nat.succ_pos _)
      rw [List.getD_eq_getElem _ _ hlt]
      exact List.getElem_mem hlt
    | shortestQueue =>
      simp only [Option.some.injEq] at h
      subst h
      exact foldl_pick_mem betterCand rest c0
    | fifoArrival =>
      simp only [Option.some.injEq] at h
      subst h
      exact List.mem_cons_self c0 rest

theorem reserve_of_hasFreeSlot (q : Queue) (h : hasFreeSlot q = true) :
    ∃ s q1, q.reserve = some (s, q1) := by
  unfold hasFreeSlot at h
  unfold Queue.reserve
  rw [if_pos (of_decide_eq_true h)]
  exact ⟨_, _, rfl⟩

/-- Modelled from the spec: the router reserves an input-queue slot on the
chosen resource before committing the request to the controller. -/
def routeAndReserve (p : RoutingPolicy) (cs : List Candidate) :
    Option (Candidate × Nat × Queue) :=
  match chooseTarget p cs with
  | none => none
  | some c =>
    match c.inputQueue.reserve with
    | none => none
    | some (slot, q1) => some (c, slot, q1)

/-- Modelled from the spec: what a controller does when the transport for a
committed request is about to begin. -/
inductive ControllerAction
  | startTransport (slot : Nat)
  | rerouteRequest
deriving DecidableEq, Repr

/-- Modelled from the spec: controllers never start a transport to a target
whose reservation is no longer valid; such a request is returned to the
router for re-routing. -/
def transportStart (slot : Nat) (target : Queue) : ControllerAction :=
  if slot ∈ target.reservations then .startTransport slot
  else .rerouteRequest

/-- C7: the router never assigns a request to a target resource whose input
queue has no free slot and cannot be reserved — every chosen candidate is
feasible, and the slot reservation on the chosen target always succeeds;
and whenever the previously chosen target has become infeasible before the
transport begins (its reservation is no longer held), the controller does
not start the transport but returns the request for re-routing. -/
theorem router_never_full (p : RoutingPolicy) (cs : List Candidate)
    (c : Candidate) (slot : Nat) (q : Queue) :
    (chooseTarget p cs = some c → hasFreeSlot c.inputQueue = true) ∧
    (chooseTarget p cs = some c →
      ∃ s q1, routeAndReserve p cs = some (c, s, q1)) ∧
    (slot ∉ q.reservations → transportStart slot q = .rerouteRequest) ∧
    (transportStart slot q = .startTransport slot →
      slot ∈ q.reservations) := by
  refine ⟨?_, ?_, ?_, ?_⟩
  · intro h
    have hm := chooseTarget_mem p cs c h
    exact (List.mem_filter.mp hm).2
  · intro h
    have hfree := (List.mem_filter.mp (chooseTarget_mem p cs c h)).2
    obtain ⟨s, q1, hres⟩ := reserve_of_hasFreeSlot c.inputQueue hfree
    exact ⟨s, q1, by simp [routeAndReserve, h, hres]⟩
  · intro h
    unfold transportStart
    rw [if_neg h]
  · intro h
    unfold transportStart at h
    split at h
    · assumption
    · simp at h

/-- Concrete feasible and infeasible candidates for the router witness. -/
def candFree : Candidate := ⟨1, ⟨2, [9], [], 0⟩⟩

/-- Concrete candidate whose input queue is full, for the router witness. -/
def candFull : Candidate := ⟨2, ⟨1, [8], [], 0⟩⟩

/-- Witness for C7: with one full and one free candidate, shortest-queue
routing picks the free one, the reservation succeeds, and a controller
whose reservation is gone re-routes. -/
theorem router_never_full_witness :
    hasFreeSlot candFree.inputQueue = true ∧
    (∃ s q1, routeAndReserve .shortestQueue [candFull, candFree] =
      some (candFree, s, q1)) ∧
    transportStart 3 ⟨1, [8], [], 0⟩ = .rerouteRequest :=
  ⟨(router_never_full .shortestQueue [candFull, candFree] candFree 3
      ⟨1, [8], [], 0⟩).1 (by decide),
   (router_never_full .shortestQueue [candFull, candFree] candFree 3
      ⟨1, [8], [], 0⟩).2.1 (by decide),
   (router_never_full .shortestQueue [candFull, candFree] candFree 3
      ⟨1, [8], [], 0⟩).2.2.1 (by decide)⟩

/- ## Deadlock in spite of per-request avoidance (tutorial 2, §4.6, §7) -/

/-- Modelled from the spec: a miniature production flow with two bounded
shared queues and re-entrant products, sufficient to exhibit the cyclic
blocking the per-request deadlock-avoidance rules do not exclude.  Each
product is an id with its remaining plan, the list of queue indices it
still must visit; an arriving product enters queue 1; a transport moves the
head of a queue to the other queue only when the target has a free
position; when nothing can move, time still advances and a log row is
appended, so the run continues to the horizon. -/
structure FlowState where
  clock : Nat
  cap1 : Nat
  cap2 : Nat
  q1 : List (Nat × List Nat)
  q2 : List (Nat × List Nat)
  arrival : Option (Nat × List Nat)
  log : List Nat
deriving DecidableEq, Repr

/-- Modelled from the spec: a bounded queue position count is exhausted
when the occupancy reaches the declared capacity (capacity 0 unbounded). -/
def queueFull (cap len : Nat) : Bool :=
  decide (cap ≠ 0 ∧ cap ≤ len)

/-- Modelled from the spec: whether the head product of a queue requires
the given queue as its next location. -/
def headWants (q : List (Nat × List Nat)) (target : Nat) : Bool :=
  match q with
  | [] => false
  | (_, plan) :: _ => plan.headD 0 == target

/-- Modelled from the spec: one simulated time step is always logged; the
run never raises, it advances the clock and appends an event row. -/
def tick (s : FlowState) : FlowState :=
  { s with clock := s.clock + 1, log := s.log ++ [s.clock] }

/-- Modelled from the spec: a transport delivers the head of a queue to the
other queue when the target has a free position; otherwise the transport is
blocked by the full target and nothing moves. -/
def tryTransport (s : FlowState) : FlowState :=
  if headWants s.q1 2 && !queueFull s.cap2 s.q2.length then
    match s.q1 with
    | [] => tick s
    | (i, plan) :: rest =>
      tick { s with q1 := rest, q2 := s.q2 ++ [(i, plan.tail)] }
  else if headWants s.q2 1 && !queueFull s.cap1 s.q1.length then
    match s.q2 with
    | [] => tick s
    | (i, plan) :: rest =>
      tick { s with q2 := rest, q1 := s.q1 ++ [(i, plan.tail)] }
  else tick s

/-- Modelled from the spec: one step of the driver: admit a pending arrival
into queue 1 when it has a free position, otherwise attempt the transports;
in every case the clock advances and the log grows. -/
def flowStep (s : FlowState) : FlowState :=
  match s.arrival with
  | none => tryTransport s
  | some p =>
    if queueFull s.cap1 s.q1.length then tryTransport s
    else tick { s with q1 := s.q1 ++ [p], arrival := none }

/-- Modelled from the spec: the run to a horizon counted in steps. -/
def flowRun : Nat → FlowState → FlowState
  | 0, s => s
  | n + 1, s => flowRun n (flowStep s)

/-- Modelled from the spec: the surfaced run results, the length of the
event log and the work-in-process count. -/
def flowKPIs (s : FlowState) : Nat × Nat :=
  (s.log.length, s.q1.length + s.q2.length)

/-- Valid bounded configuration with re-entrant flow: product 1 sits in
queue 1 and must visit queue 2 then queue 1 again; product 2 sits in queue
2 and must visit queue 1 then queue 2 again; product 3 is arriving into
queue 1 with the same re-entrant plan as product 1. -/
def flowDeadlockInit : FlowState :=
  { clock := 0, cap1 := 2, cap2 := 1,
    q1 := [(1, [2, 1])], q2 := [(2, [1, 2])],
    arrival := some (3, [2, 1]), log := [] }

/-- The state reached after the arrival is admitted: both queues are full,
every product blocked; clock and log keep growing. -/
def flowFrozen (c : Nat) (L : List Nat) : FlowState :=
  { clock := c, cap1 := 2, cap2 := 1,
    q1 := [(1, [2, 1]), (3, [2, 1])], q2 := [(2, [1, 2])],
    arrival := none, log := L }

theorem flowStep_frozen (c : Nat) (L : List Nat) :
    flowStep (flowFrozen c L) = flowFrozen (c + 1) (L ++ [c]) := rfl

theorem flowRun_frozen_props (n : Nat) : ∀ c L,
    (flowRun n (flowFrozen c L)).q1 = [(1, [2, 1]), (3, [2, 1])] ∧
    (flowRun n (flowFrozen c L)).q2 = [(2, [1, 2])] ∧
    (flowRun n (flowFrozen c L)).clock = c + n ∧
    (flowRun n (flowFrozen c L)).log.length = L.length + n := by
  induction n with
  | zero => intro c L; exact ⟨rfl, rfl, rfl, rfl⟩
  | succ n ih =>
    intro c L
    have hdef : flowRun (n + 1) (flowFrozen c L) =
        flowRun n (flowFrozen (c + 1) (L ++ [c])) := by
      show flowRun n (flowStep (flowFrozen c L)) = _
      rw [flowStep_frozen]
    rw [hdef]
    obtain ⟨h1, h2, h3, h4⟩ := ih (c + 1) (L ++ [c])
    refine ⟨h1, h2, ?_, ?_⟩
    · rw [h3]
      omega
    · rw [h4]
      simp only [List.length_append, List.length_cons, List.length_nil]
      omega

/-- C9: the per-request deadlock-avoidance rules do not guarantee
system-wide progress.  From the valid configuration `flowDeadlockInit`
(bounded queues, re-entrant plans), one step reaches a state in which every
queue position is occupied and both transports are blocked by a full
target; from then on no product advances, yet the run continues for any
declared horizon, never raising, and returns a complete event log (one row
per step) and KPIs. -/
theorem deadlock_run_to_horizon (n : Nat) :
    (0 < flowDeadlockInit.cap1 ∧ 0 < flowDeadlockInit.cap2) ∧
    (flowRun 1 flowDeadlockInit).q1.length = flowDeadlockInit.cap1 ∧
    (flowRun 1 flowDeadlockInit).q2.length = flowDeadlockInit.cap2 ∧
    headWants (flowRun 1 flowDeadlockInit).q1 2 = true ∧
    queueFull (flowRun 1 flowDeadlockInit).cap2
      (flowRun 1 flowDeadlockInit).q2.length = true ∧
    headWants (flowRun 1 flowDeadlockInit).q2 1 = true ∧
    queueFull (flowRun 1 flowDeadlockInit).cap1
      (flowRun 1 flowDeadlockInit).q1.length = true ∧
    (flowRun (n + 1) flowDeadlockInit).q1 = (flowRun 1 flowDeadlockInit).q1 ∧
    (flowRun (n + 1) flowDeadlockInit).q2 = (flowRun 1 flowDeadlockInit).q2 ∧
    (flowRun (n + 1) flowDeadlockInit).log.length = n + 1 ∧
    (flowRun (n + 1) flowDeadlockInit).clock = n + 1 ∧
    flowKPIs (flowRun (n + 1) flowDeadlockInit) = (n + 1, 3) := by
  have hstep : flowStep flowDeadlockInit = flowFrozen 1 [0] := rfl
  have hrun : ∀ m, flowRun (m + 1) flowDeadlockInit =
      flowRun m (flowFrozen 1 [0]) := by
    intro m
    show flowRun m (flowStep flowDeadlockInit) = _
    rw [hstep]
  have h1 : flowRun 1 flowDeadlockInit = flowFrozen 1 [0] := hrun 0
  obtain ⟨hq1, hq2, hclock, hlog⟩ := flowRun_frozen_props n 1 [0]
  refine ⟨by decide, ?_, ?_, ?_, ?_, ?_, ?_, ?_, ?_, ?_, ?_, ?_⟩
  · rw [h1]; rfl
  · rw [h1]; rfl
  · rw [h1]; rfl
  · rw [h1]; rfl
  · rw [h1]; rfl
  · rw [h1]; rfl
  · rw [hrun n, h1, hq1]
    rfl
  · rw [hrun n, h1, hq2]
    rfl
  · rw [hrun n, hlog]
    simp only [List.length_cons, List.length_nil]
    omega
  · rw [hrun n, hclock]
    omega
  · rw [hrun n]
    unfold flowKPIs
    rw [hq1, hq2, hlog]
    simp only [List.length_cons, List.length_nil, Prod.mk.injEq]
    constructor
    · omega
    · trivial
